import Mathlib

/-!
Verification development for the mongo-notify gateway (`src/server.ts`).

The definitions below are a shallow embedding of the functions of
`src/server.ts`: `validateToken`, `checkRateLimit`, `broadcast`,
`generateDiff`, the `summary` branch of `formatDiff`, and the
source-address derivation of the `upgrade` handler.  JavaScript numbers
that are used as integers (epoch milliseconds, counters) are modelled as
`Int`/`Nat`; fallible library calls (`crypto.timingSafeEqual`, which
raises when the two buffers have different byte lengths) are modelled
with `Except`.  The HMAC-SHA-256 hex digest produced by Node's `crypto`
library is an external primitive and is passed in as an explicit
function argument.
-/

namespace MongoNotify

/-- Model of JavaScript `parseInt(s, 10)`: skip leading whitespace, read an
optional sign, then take the longest prefix of decimal digits; `none`
(`NaN`) when no digit is found.  The digit prefix is evaluated exactly
(JavaScript would round very long digit strings to the nearest float;
epoch-millisecond timestamps are far below that range). -/
def digitsVal (cs : List Char) : Nat :=
  cs.foldl (fun n c => n * 10 + (c.toNat - '0'.toNat)) 0

/-- Model of `parseInt(timestamp, 10)` from `validateToken` (server.ts:32). -/
def parseIntBase10 (s : String) : Option Int :=
  let cs := s.toList.dropWhile (fun c => c.isWhitespace)
  let signAndRest : Int × List Char :=
    match cs with
    | '-' :: t => (-1, t)
    | '+' :: t => (1, t)
    | t => (1, t)
  let digits := signAndRest.2.takeWhile (fun c => c.isDigit)
  if digits.isEmpty then none
  else some (signAndRest.1 * (digitsVal digits : Int))

/-- Model of Node's `crypto.timingSafeEqual(Buffer.from(a), Buffer.from(b))`
(server.ts:44-47).  `Buffer.from` encodes a string as UTF-8; when the two
byte lengths differ `timingSafeEqual` throws
`ERR_CRYPTO_TIMING_SAFE_EQUAL_LENGTH`, modelled as `Except.error`.  Two
UTF-8 encodings of equal length are byte-equal exactly when the strings
are equal. -/
def timingSafeEqual (a b : String) : Except String Bool :=
  if a.utf8ByteSize = b.utf8ByteSize then Except.ok (a == b)
  else Except.error "ERR_CRYPTO_TIMING_SAFE_EQUAL_LENGTH"

/-- Model of `validateToken` (server.ts:28-48).  `hmacSha256Hex secret msg`
stands for `crypto.createHmac('sha256', secret).update(msg).digest('hex')`,
an external crypto primitive; `TOKEN` is the process-wide shared secret;
`now` is `Date.now()` at call time.  Absent query parameters arrive as
`none`; the JavaScript falsiness test `!token || !timestamp || !TOKEN`
also treats empty strings as absent. -/
def validateToken (hmacSha256Hex : String → String → String) (TOKEN : String)
    (token timestamp : Option String) (now : Int) : Except String Bool :=
  match token, timestamp with
  | some tok, some ts =>
      if tok == "" || ts == "" || TOKEN == "" then Except.ok false
      else
        match parseIntBase10 ts with
        | none => Except.ok false
        | some timestampNum =>
            if (now - timestampNum).natAbs > 5 * 60 * 1000 then Except.ok false
            else timingSafeEqual tok (hmacSha256Hex TOKEN ts)
  | _, _ => Except.ok false

/-- Rate-limit record stored per source address (server.ts:26):
`{ count: number; resetTime: number }`. -/
structure RateInfo where
  count : Nat
  resetTime : Int
  deriving DecidableEq, Repr

/-- The `ipConnections` map (server.ts:26), modelled as an association list
with unique keys in insertion order, as a JavaScript `Map` iterates. -/
abbrev RLMap : Type := List (String × RateInfo)

/-- Model of `Map.prototype.get`. -/
def mapGet (m : RLMap) (k : String) : Option RateInfo :=
  match m with
  | [] => none
  | (k', v) :: rest => if k' = k then some v else mapGet rest k

/-- Model of `Map.prototype.set`: replace the binding in place when the key
is present, otherwise append it. -/
def mapSet (m : RLMap) (k : String) (v : RateInfo) : RLMap :=
  match m with
  | [] => [(k, v)]
  | (k', v') :: rest => if k' = k then (k, v) :: rest else (k', v') :: mapSet rest k v

/-- `RATE_LIMIT_WINDOW` (server.ts:24): one minute in milliseconds. -/
def RATE_LIMIT_WINDOW : Int := 60 * 1000

/-- `MAX_CONNECTIONS_PER_IP` (server.ts:25). -/
def MAX_CONNECTIONS_PER_IP : Nat := 5

/-- Model of `checkRateLimit` (server.ts:50-65).  The JavaScript function
reads `Date.now()` and mutates the module-level `ipConnections` map; here
`now` and the map are passed and the updated map is returned. -/
def checkRateLimit (ip : String) (now : Int) (m : RLMap) : Bool × RLMap :=
  match mapGet m ip with
  | none => (true, mapSet m ip ⟨1, now + RATE_LIMIT_WINDOW⟩)
  | some connectionInfo =>
      if now > connectionInfo.resetTime then
        (true, mapSet m ip ⟨1, now + RATE_LIMIT_WINDOW⟩)
      else if connectionInfo.count ≥ MAX_CONNECTIONS_PER_IP then
        (false, m)
      else
        (true, mapSet m ip ⟨connectionInfo.count + 1, connectionInfo.resetTime⟩)

/-- Sequence of `checkRateLimit` calls for one address at the given times,
returning the list of verdicts and the final map. -/
def runAttempts (ip : String) (m : RLMap) : List Int → List Bool × RLMap
  | [] => ([], m)
  | t :: ts =>
      ((checkRateLimit ip t m).1 :: (runAttempts ip (checkRateLimit ip t m).2 ts).1,
       (runAttempts ip (checkRateLimit ip t m).2 ts).2)

/-- Sequence of `checkRateLimit` calls for arbitrary addresses and times,
returning the final map. -/
def runCalls (calls : List (String × Int)) (m : RLMap) : RLMap :=
  calls.foldl (fun acc c => (checkRateLimit c.1 c.2 acc).2) m

/-- The fixed forwarding-header priority list of the `upgrade` handler
(server.ts:194-204). -/
def ipHeaders : List String :=
  ["x-forwarded-for",
   "x-real-ip",
   "cf-connecting-ip",
   "x-forwarded",
   "true-client-ip",
   "x-client-ip",
   "x-cluster-client-ip",
   "fastly-client-ip",
   "x-appengine-user-ip"]

/-- JavaScript truthiness of `req.headers[header]`: an absent header and an
empty-string header are both falsy. -/
def headerTruthy (v : Option String) : Bool :=
  match v with
  | none => false
  | some s => s ≠ ""

/-- Model of the source-address derivation of the `upgrade` handler
(server.ts:206):
`ipHeaders.find(header => req.headers[header]) || req.socket.remoteAddress || 'unknown'`.
Note that `Array.prototype.find` returns the matching array ELEMENT, i.e.
the header NAME, not the header value.  `headers` maps a header name to
its value when present; `remoteAddress` is `req.socket.remoteAddress`. -/
def deriveIp (headers : String → Option String) (remoteAddress : Option String) : String :=
  match ipHeaders.find? (fun h => headerTruthy (headers h)) with
  | some name => name
  | none =>
      match remoteAddress with
      | some addr => if addr == "" then "unknown" else addr
      | none => "unknown"

/-- The `WebSocket.OPEN` ready-state constant. -/
def WS_OPEN : Nat := 1

/-- A WebSocket handle as the broadcaster sees it: an identity and a ready
state.  `activeSockets` is modelled as a list of such handles in
insertion order, as a JavaScript `Set` iterates. -/
structure Sock where
  id : Nat
  readyState : Nat
  deriving DecidableEq, Repr

/-- The `for (const ws of activeSockets)` loop of `broadcast`
(server.ts:69-73): each open socket is sent the payload, every other
socket is skipped and the loop continues. -/
def sendLoop (payload : String) : List Sock → List (Nat × String)
  | [] => []
  | ws :: rest =>
      if ws.readyState = WS_OPEN then (ws.id, payload) :: sendLoop payload rest
      else sendLoop payload rest

/-- Model of `broadcast` (server.ts:67-74).  `stringify` stands for the
external `JSON.stringify`; it is applied once, before the loop.  The
result is the list of performed `ws.send(payload)` deliveries together
with the socket registry, which `broadcast` does not modify. -/
def broadcast {α : Type} (stringify : α → String) (data : α) (socks : List Sock) :
    List (Nat × String) × List Sock :=
  let payload := stringify data
  (sendLoop payload socks, socks)

/-- JSON-like JavaScript values as the diff engine receives them
(parsed request-body JSON): `null`, booleans, numbers, strings, objects
and arrays.  Numbers are modelled as JSON integers; JSON has no `NaN`,
the one JavaScript number that is not strict-equal to itself. -/
inductive JsValue where
  | vnull : JsValue
  | vbool : Bool → JsValue
  | vnum : Int → JsValue
  | vstr : String → JsValue
  | vobj : List (String × JsValue) → JsValue
  | varr : List JsValue → JsValue

/-- The `DiffEntry` union type (server.ts:76-79). -/
inductive DiffEntry where
  | added : String → JsValue → DiffEntry
  | removed : String → JsValue → DiffEntry
  | changed : String → JsValue → JsValue → DiffEntry

/-- The recursion guard of `generateDiff` (server.ts:90-91):
`val !== null && typeof val === 'object'`.  In JavaScript both plain
objects and arrays have `typeof` `'object'`; `null` is excluded
explicitly. -/
def isObjType : JsValue → Bool
  | JsValue.vobj _ => true
  | JsValue.varr _ => true
  | _ => false

/-- JavaScript strict equality `===` as consulted by `generateDiff`
(server.ts:93): primitives compare by value; an object or array is
strict-equal only to itself by reference, and the comparing branch of
`generateDiff` is reached only when at most one side is a non-null
object, so reference equality never fires there and is modelled as
`false`. -/
def jsStrictEq : JsValue → JsValue → Bool
  | JsValue.vnull, JsValue.vnull => true
  | JsValue.vbool a, JsValue.vbool b => a == b
  | JsValue.vnum a, JsValue.vnum b => a == b
  | JsValue.vstr a, JsValue.vstr b => a == b
  | _, _ => false

/-- Canonical array-index reading of a property key: `arr[k]` and `str[k]`
hit an element only when `k` is the canonical decimal numeral of an
index (`"1"` does, `"01"` does not). -/
def canonIndex (k : String) : Option Nat :=
  match k.toNat? with
  | some i => if Nat.repr i == k then some i else none
  | none => none

/-- JavaScript property read `v?.[k]` (server.ts:87-88), returning `none`
for `undefined`: object fields by name, array elements and string
characters by canonical index, nothing on other primitives and `null`. -/
def getKey : JsValue → String → Option JsValue
  | JsValue.vobj fields, k => (fields.find? (fun p => p.1 == k)).map (fun p => p.2)
  | JsValue.varr elems, k =>
      match canonIndex k with
      | some i => elems[i]?
      | none => none
  | JsValue.vstr s, k =>
      match canonIndex k with
      | some i => (s.toList[i]?).map (fun c => JsValue.vstr (String.mk [c]))
      | none => none
  | _, _ => none

/-- JavaScript `Object.keys(v || {})` (server.ts:83): own enumerable keys
of `v`, with every falsy value (and `null`, which `Object.keys` would
reject) replaced by `{}`.  Objects list field names in insertion order;
arrays and strings list their index numerals; other primitives have no
own enumerable keys. -/
def jsKeys : JsValue → List String
  | JsValue.vobj fields => fields.map (fun p => p.1)
  | JsValue.varr elems => (List.range elems.length).map Nat.repr
  | JsValue.vstr s => (List.range s.toList.length).map Nat.repr
  | _ => []

/-- First-occurrence deduplication, as `new Set([...a, ...b])` iterates in
insertion order with later duplicates dropped (server.ts:83). -/
def dedupFirst (l : List String) : List String :=
  l.foldl (fun acc k => if k ∈ acc then acc else acc ++ [k]) []

/-- The key set `new Set([...Object.keys(obj1 || {}), ...Object.keys(obj2 || {})])`. -/
def unionKeys (k1 k2 : List String) : List String :=
  dedupFirst (k1 ++ k2)

/-- Path extension (server.ts:86): `path ? path + '.' + key : key`. -/
def joinPath (path key : String) : String :=
  if path == "" then key else path ++ "." ++ key

/-- The `for (const key of keys)` loop of `generateDiff` (server.ts:85-102),
with the body's recursive `generateDiff(val1, val2, fullPath)` call
inlined as a recursive call on the child values and their key set.  Per
key: when both values are non-null objects, recurse; otherwise, when the
values are not strict-equal, emit `added` when the left value is
`undefined`, `removed` when the right value is `undefined`, and
`changed` otherwise. -/
def diffLoop (a b : JsValue) (path : String) : List String → List DiffEntry
  | [] => []
  | key :: rest =>
      (match _h1 : getKey a key, _h2 : getKey b key with
       | some v1, some v2 =>
           if _hobj : isObjType v1 = true ∧ isObjType v2 = true then
             diffLoop v1 v2 (joinPath path key) (unionKeys (jsKeys v1) (jsKeys v2))
           else if jsStrictEq v1 v2 then []
           else [DiffEntry.changed (joinPath path key) v1 v2]
       | none, some v2 => [DiffEntry.added (joinPath path key) v2]
       | some v1, none => [DiffEntry.removed (joinPath path key) v1]
       | none, none => []) ++ diffLoop a b path rest
termination_by keys => (sizeOf a + sizeOf b, keys.length)
decreasing_by
  · have key1 : ∀ (v w : JsValue) (k : String),
        getKey v k = some w → isObjType w = true → sizeOf w < sizeOf v := by
      intro v w k hget hobj
      cases v with
      | vnull => simp [getKey] at hget
      | vbool x => simp [getKey] at hget
      | vnum x => simp [getKey] at hget
      | vstr s =>
          simp only [getKey] at hget
          cases hcanon : canonIndex k with
          | none => rw [hcanon] at hget; simp at hget
          | some i =>
              rw [hcanon] at hget
              rcases Option.map_eq_some'.mp hget with ⟨c, hc, hw⟩
              rw [← hw] at hobj
              simp [isObjType] at hobj
      | vobj fields =>
          simp only [getKey] at hget
          rcases Option.map_eq_some'.mp hget with ⟨p, hfind, hw⟩
          have hp := List.mem_of_find?_eq_some hfind
          have h1 := List.sizeOf_lt_of_mem hp
          cases p with
          | mk k' w' =>
              simp only [JsValue.vobj.sizeOf_spec]
              simp only [Prod.mk.sizeOf_spec] at h1
              have hw2 : w' = w := hw
              subst hw2
              omega
      | varr elems =>
          simp only [getKey] at hget
          cases hcanon : canonIndex k with
          | none => rw [hcanon] at hget; simp at hget
          | some i =>
              rw [hcanon] at hget
              have hw := List.getElem?_mem hget
              have h1 := List.sizeOf_lt_of_mem hw
              simp only [JsValue.varr.sizeOf_spec]
              omega
    have hlt1 : sizeOf v1 < sizeOf a := key1 a v1 key _h1 _hobj.1
    have hlt2 : sizeOf v2 < sizeOf b := key1 b v2 key _h2 _hobj.2
    exact Prod.Lex.left _ _ (by omega)
  · exact Prod.Lex.right _ (by simp)

/-- Model of `generateDiff` (server.ts:81-105): walk the deduplicated
union of the two key sets. -/
def generateDiff (obj1 obj2 : JsValue) (path : String) : List DiffEntry :=
  diffLoop obj1 obj2 path (unionKeys (jsKeys obj1) (jsKeys obj2))

/-- The `stats` accumulator step of the `summary` branch of `formatDiff`
(server.ts:131-134): `stats[change.type] += 1`. -/
structure DiffStats where
  added : Nat
  removed : Nat
  changed : Nat
  deriving DecidableEq, Repr

/-- One iteration of `for (const change of diff) stats[change.type] += 1`. -/
def bumpStat (s : DiffStats) : DiffEntry → DiffStats
  | DiffEntry.added _ _ => { s with added := s.added + 1 }
  | DiffEntry.removed _ _ => { s with removed := s.removed + 1 }
  | DiffEntry.changed _ _ _ => { s with changed := s.changed + 1 }

/-- Model of the `summary` case of `formatDiff` (server.ts:130-135). -/
def formatDiffSummary (diff : List DiffEntry) : String :=
  let stats := diff.foldl bumpStat ⟨0, 0, 0⟩
  "Added: " ++ toString stats.added ++ ", Removed: " ++ toString stats.removed ++
    ", Changed: " ++ toString stats.changed

/-- Recognizer for `added` entries. -/
def isAddedEntry : DiffEntry → Bool
  | DiffEntry.added _ _ => true
  | _ => false

/-- Recognizer for `removed` entries. -/
def isRemovedEntry : DiffEntry → Bool
  | DiffEntry.removed _ _ => true
  | _ => false

/-- Recognizer for `changed` entries. -/
def isChangedEntry : DiffEntry → Bool
  | DiffEntry.changed _ _ _ => true
  | _ => false

/-- The kind of a diff entry, with its path and value payload erased. -/
def kindTag : DiffEntry → Nat
  | DiffEntry.added _ _ => 0
  | DiffEntry.removed _ _ => 1
  | DiffEntry.changed _ _ _ => 2

/-- Looking up the key just stored finds the stored record. -/
theorem mapGet_mapSet_self (m : RLMap) (k : String) (v : RateInfo) :
    mapGet (mapSet m k v) k = some v := by
  induction m with
  | nil => simp [mapSet, mapGet]
  | cons p rest ih =>
      cases p with
      | mk k' v' =>
          by_cases h : k' = k
          · simp [mapSet, mapGet, h]
          · simp [mapSet, mapGet, h, ih]

/-- Every binding of the updated map is an old binding or the new one. -/
theorem mem_mapSet (m : RLMap) (k : String) (v : RateInfo) (p : String × RateInfo)
    (hp : p ∈ mapSet m k v) : p ∈ m ∨ p = (k, v) := by
  induction m with
  | nil => simpa [mapSet] using hp
  | cons q rest ih =>
      cases q with
      | mk k' v' =>
          by_cases h : k' = k
          · simp only [mapSet, if_pos h] at hp
            rcases List.mem_cons.mp hp with h1 | h1
            · right; exact h1
            · left; exact List.mem_cons_of_mem _ h1
          · simp only [mapSet, if_neg h] at hp
            rcases List.mem_cons.mp hp with h1 | h1
            · left; exact h1 ▸ List.mem_cons_self _ _
            · rcases ih h1 with h2 | h2
              · left; exact List.mem_cons_of_mem _ h2
              · right; exact h2

/-- First branch of `checkRateLimit` (server.ts:54-57): no record, or the
previous window expired. -/
theorem checkRateLimit_fresh (ip : String) (now : Int) (m : RLMap)
    (h : mapGet m ip = none ∨ ∃ info, mapGet m ip = some info ∧ now > info.resetTime) :
    checkRateLimit ip now m = (true, mapSet m ip ⟨1, now + 60 * 1000⟩) := by
  rcases h with h | ⟨info, hg, hexp⟩
  · simp [checkRateLimit, h, RATE_LIMIT_WINDOW]
  · simp [checkRateLimit, hg, if_pos hexp, RATE_LIMIT_WINDOW]

/-- Third branch of `checkRateLimit` (server.ts:63-64): active window,
count below the maximum. -/
theorem checkRateLimit_increment (ip : String) (now : Int) (m : RLMap) (c : Nat) (r : Int)
    (hg : mapGet m ip = some ⟨c, r⟩) (hactive : ¬(now > r)) (hlt : c < 5) :
    checkRateLimit ip now m = (true, mapSet m ip ⟨c + 1, r⟩) := by
  simp [checkRateLimit, hg, if_neg hactive, MAX_CONNECTIONS_PER_IP]
  omega

/-- Second branch of `checkRateLimit` (server.ts:59-61): active window,
count at or above the maximum: refuse and leave the map untouched. -/
theorem checkRateLimit_refuse (ip : String) (now : Int) (m : RLMap) (info : RateInfo)
    (hg : mapGet m ip = some info) (hactive : ¬(now > info.resetTime))
    (hge : info.count ≥ 5) :
    checkRateLimit ip now m = (false, m) := by
  simp [checkRateLimit, hg, if_neg hactive, MAX_CONNECTIONS_PER_IP, hge]

/-- C1.  The claim says the rate-limit key is the VALUE of the first
present forwarding header.  The code (server.ts:206) computes
`ipHeaders.find(header => req.headers[header])`, and `Array.prototype.find`
returns the matching array element, i.e. the header NAME: with
`x-forwarded-for: 203.0.113.7` and peer address `10.0.0.1` the derived
key is the literal string `"x-forwarded-for"`, not `"203.0.113.7"`.  The
two fallback clauses of the claim (peer address, then `"unknown"`) do
hold, as the last two conjuncts show. -/
theorem deriveIp_returns_header_name :
    deriveIp (fun h => if h == "x-forwarded-for" then some "203.0.113.7" else none)
        (some "10.0.0.1") = "x-forwarded-for"
    ∧ "x-forwarded-for" ≠ "203.0.113.7"
    ∧ deriveIp (fun _ => none) (some "10.0.0.1") = "10.0.0.1"
    ∧ deriveIp (fun _ => none) none = "unknown" := by
  refine ⟨by decide, by decide, by decide, by decide⟩

/-- The empty string does not parse as an integer. -/
theorem parseIntBase10_empty : parseIntBase10 "" = none := rfl

/-- C2 (code bug).  The claim says `validate` never throws and returns
`false` for every wrong token whatever its length.  In the code the
final comparison is `crypto.timingSafeEqual(Buffer.from(token),
Buffer.from(expectedToken))` (server.ts:44-47), which throws
`ERR_CRYPTO_TIMING_SAFE_EQUAL_LENGTH` whenever the two buffers have
different byte lengths; the expected token is a 64-character hex digest,
so any fresh request whose token has a different UTF-8 byte length makes
`validateToken` throw instead of returning `false`. -/
theorem validateToken_throws_on_length_mismatch
    (hmacSha256Hex : String → String → String) (TOKEN tok ts : String) (n now : Int)
    (hTOKEN : TOKEN ≠ "") (htok : tok ≠ "")
    (hparse : parseIntBase10 ts = some n)
    (hfresh : (now - n).natAbs ≤ 5 * 60 * 1000)
    (hlen : tok.utf8ByteSize ≠ (hmacSha256Hex TOKEN ts).utf8ByteSize) :
    validateToken hmacSha256Hex TOKEN (some tok) (some ts) now =
      Except.error "ERR_CRYPTO_TIMING_SAFE_EQUAL_LENGTH" := by
  have hts : ts ≠ "" := by
    intro h
    rw [h, parseIntBase10_empty] at hparse
    exact Option.noConfusion hparse
  simp only [validateToken, hparse]
  rw [if_neg (by simp [htok, hts, hTOKEN])]
  rw [if_neg (by omega)]
  simp [timingSafeEqual, hlen]

/-- Witness for C2: the concrete token `"a"` (1 byte) against a 64-byte
expected digest, at the exact timestamp time, makes the model throw. -/
theorem validateToken_throws_on_length_mismatch_app :
    validateToken
        (fun _ _ => "0000000000000000000000000000000000000000000000000000000000000000")
        "secret" (some "a") (some "0") 0 =
      Except.error "ERR_CRYPTO_TIMING_SAFE_EQUAL_LENGTH" :=
  validateToken_throws_on_length_mismatch
    (fun _ _ => "0000000000000000000000000000000000000000000000000000000000000000")
    "secret" "a" "0" 0 0 (by decide) (by decide) (by decide) (by decide) (by decide)

/-- C4.  A token computed as the HMAC-SHA-256 hex digest of the timestamp
string under the shared secret is accepted whenever the call time is
within five minutes of the timestamp (server.ts:36-47).  The two
nonemptiness hypotheses reflect that the shared secret is checked
nonempty at startup (server.ts:14) and that a SHA-256 hex digest is a
64-character string. -/
theorem validateToken_accepts_fresh_hmac
    (hmacSha256Hex : String → String → String) (TOKEN ts : String) (n now : Int)
    (hTOKEN : TOKEN ≠ "") (hdigest : hmacSha256Hex TOKEN ts ≠ "")
    (hparse : parseIntBase10 ts = some n)
    (hfresh : (now - n).natAbs ≤ 5 * 60 * 1000) :
    validateToken hmacSha256Hex TOKEN (some (hmacSha256Hex TOKEN ts)) (some ts) now =
      Except.ok true := by
  have hts : ts ≠ "" := by
    intro h
    rw [h, parseIntBase10_empty] at hparse
    exact Option.noConfusion hparse
  simp only [validateToken, hparse]
  rw [if_neg (by simp [hdigest, hts, hTOKEN])]
  rw [if_neg (by omega)]
  simp [timingSafeEqual]

/-- Witness for C4 at a concrete secret, digest function and timestamp. -/
theorem validateToken_accepts_fresh_hmac_app :
    validateToken (fun _ _ => "ff") "secret" (some "ff") (some "1000") 1000 =
      Except.ok true :=
  validateToken_accepts_fresh_hmac (fun _ _ => "ff") "secret" "1000" 1000 1000
    (by decide) (by decide) (by decide) (by decide)

/-- C5.  Whenever the call time differs from the parsed timestamp by more
than five minutes in either direction, `validateToken` returns `false`
for EVERY supplied token — the freshness test (server.ts:36) runs before
the comparison, so even a correct HMAC or a wrong-length token yields
`Except.ok false`, never an error. -/
theorem validateToken_rejects_stale_timestamp
    (hmacSha256Hex : String → String → String) (TOKEN tok ts : String) (n now : Int)
    (hparse : parseIntBase10 ts = some n)
    (hstale : (now - n).natAbs > 5 * 60 * 1000) :
    validateToken hmacSha256Hex TOKEN (some tok) (some ts) now = Except.ok false := by
  simp only [validateToken, hparse]
  by_cases hc : (tok == "" || ts == "" || TOKEN == "") = true
  · rw [if_pos hc]
  · rw [if_neg hc]
    rw [if_pos (by omega)]

/-- Witness for C5: the correct digest for timestamp 0, presented at time
300001 ms, is rejected with a plain `false`. -/
theorem validateToken_rejects_stale_timestamp_app :
    validateToken (fun _ _ => "ff") "secret" (some "ff") (some "0") 300001 =
      Except.ok false :=
  validateToken_rejects_stale_timestamp (fun _ _ => "ff") "secret" "ff" "0" 0 300001
    (by decide) (by decide)

/-- C6.  First branch semantics and the one-minute window scenario: a call
with no record, or with an expired record, installs `count = 1,
resetTime = now + 60s` and allows; six attempts with the latter five
inside the window of the first produce five admissions and a refusal;
the first attempt past the window is allowed again with the count reset
to 1 (server.ts:50-65). -/
theorem checkRateLimit_window_scenario
    (ip : String) (m : RLMap) (t1 t2 t3 t4 t5 t6 t7 : Int)
    (hm : mapGet m ip = none)
    (h2 : t2 ≤ t1 + 60 * 1000) (h3 : t3 ≤ t1 + 60 * 1000) (h4 : t4 ≤ t1 + 60 * 1000)
    (h5 : t5 ≤ t1 + 60 * 1000) (h6 : t6 ≤ t1 + 60 * 1000) (h7 : t7 > t1 + 60 * 1000) :
    (∀ (m' : RLMap) (now : Int),
        (mapGet m' ip = none ∨ ∃ info, mapGet m' ip = some info ∧ now > info.resetTime) →
        checkRateLimit ip now m' = (true, mapSet m' ip ⟨1, now + 60 * 1000⟩))
    ∧ (runAttempts ip m [t1, t2, t3, t4, t5, t6, t7]).1 =
        [true, true, true, true, true, false, true]
    ∧ mapGet (runAttempts ip m [t1, t2, t3, t4, t5, t6, t7]).2 ip =
        some ⟨1, t7 + 60 * 1000⟩ := by
  refine ⟨fun m' now h => checkRateLimit_fresh ip now m' h, ?_⟩
  set m1 := mapSet m ip ⟨1, t1 + 60 * 1000⟩ with hm1
  set m2 := mapSet m1 ip ⟨2, t1 + 60 * 1000⟩ with hm2
  set m3 := mapSet m2 ip ⟨3, t1 + 60 * 1000⟩ with hm3
  set m4 := mapSet m3 ip ⟨4, t1 + 60 * 1000⟩ with hm4
  set m5 := mapSet m4 ip ⟨5, t1 + 60 * 1000⟩ with hm5
  have g1 : mapGet m1 ip = some ⟨1, t1 + 60 * 1000⟩ := mapGet_mapSet_self m ip _
  have g2 : mapGet m2 ip = some ⟨2, t1 + 60 * 1000⟩ := mapGet_mapSet_self m1 ip _
  have g3 : mapGet m3 ip = some ⟨3, t1 + 60 * 1000⟩ := mapGet_mapSet_self m2 ip _
  have g4 : mapGet m4 ip = some ⟨4, t1 + 60 * 1000⟩ := mapGet_mapSet_self m3 ip _
  have g5 : mapGet m5 ip = some ⟨5, t1 + 60 * 1000⟩ := mapGet_mapSet_self m4 ip _
  have s1 : checkRateLimit ip t1 m = (true, m1) :=
    checkRateLimit_fresh ip t1 m (Or.inl hm)
  have s2 : checkRateLimit ip t2 m1 = (true, m2) :=
    checkRateLimit_increment ip t2 m1 1 (t1 + 60 * 1000) g1 (by omega) (by omega)
  have s3 : checkRateLimit ip t3 m2 = (true, m3) :=
    checkRateLimit_increment ip t3 m2 2 (t1 + 60 * 1000) g2 (by omega) (by omega)
  have s4 : checkRateLimit ip t4 m3 = (true, m4) :=
    checkRateLimit_increment ip t4 m3 3 (t1 + 60 * 1000) g3 (by omega) (by omega)
  have s5 : checkRateLimit ip t5 m4 = (true, m5) :=
    checkRateLimit_increment ip t5 m4 4 (t1 + 60 * 1000) g4 (by omega) (by omega)
  have s6 : checkRateLimit ip t6 m5 = (false, m5) :=
    checkRateLimit_refuse ip t6 m5 ⟨5, t1 + 60 * 1000⟩ g5
      (show ¬(t6 > t1 + 60 * 1000) by omega) (show 5 ≥ 5 by omega)
  have s7 : checkRateLimit ip t7 m5 = (true, mapSet m5 ip ⟨1, t7 + 60 * 1000⟩) :=
    checkRateLimit_fresh ip t7 m5
      (Or.inr ⟨⟨5, t1 + 60 * 1000⟩, g5, show t7 > t1 + 60 * 1000 by omega⟩)
  constructor
  · simp only [runAttempts, s1, s2, s3, s4, s5, s6, s7]
  · simp only [runAttempts, s1, s2, s3, s4, s5, s6, s7]
    exact mapGet_mapSet_self m5 ip _

/-- Witness for C6 at a concrete address, the empty map and concrete
times. -/
theorem checkRateLimit_window_scenario_app :
    (runAttempts "1.2.3.4" [] [0, 1, 2, 3, 4, 5, 60001]).1 =
      [true, true, true, true, true, false, true] :=
  (checkRateLimit_window_scenario "1.2.3.4" [] 0 1 2 3 4 5 60001 rfl
    (by decide) (by decide) (by decide) (by decide) (by decide) (by decide)).2.1

/-- One `checkRateLimit` call keeps every stored count at or below 5. -/
theorem rl_count_le_step (ip : String) (now : Int) (m : RLMap)
    (hm : ∀ p ∈ m, p.2.count ≤ 5) :
    ∀ p ∈ (checkRateLimit ip now m).2, p.2.count ≤ 5 := by
  intro p hp
  rcases hg : mapGet m ip with _ | ⟨c, r⟩
  · rw [checkRateLimit_fresh ip now m (Or.inl hg)] at hp
    rcases mem_mapSet _ _ _ _ hp with h | h
    · exact hm p h
    · rw [h]; exact (show (1 : Nat) ≤ 5 by omega)
  · by_cases hexp : now > r
    · rw [checkRateLimit_fresh ip now m (Or.inr ⟨⟨c, r⟩, hg, hexp⟩)] at hp
      rcases mem_mapSet _ _ _ _ hp with h | h
      · exact hm p h
      · rw [h]; exact (show (1 : Nat) ≤ 5 by omega)
    · by_cases hge : c ≥ 5
      · rw [checkRateLimit_refuse ip now m ⟨c, r⟩ hg hexp hge] at hp
        exact hm p hp
      · rw [checkRateLimit_increment ip now m c r hg hexp (by omega)] at hp
        rcases mem_mapSet _ _ _ _ hp with h | h
        · exact hm p h
        · rw [h]; exact (show c + 1 ≤ 5 by omega)

/-- Any sequence of `checkRateLimit` calls keeps every count at or below
5, from any map already satisfying the bound. -/
theorem rl_count_le_runCalls (calls : List (String × Int)) :
    ∀ m : RLMap, (∀ p ∈ m, p.2.count ≤ 5) → ∀ p ∈ runCalls calls m, p.2.count ≤ 5 := by
  induction calls with
  | nil => intro m hm; simpa [runCalls] using hm
  | cons c rest ih =>
      intro m hm
      simp only [runCalls, List.foldl_cons]
      exact ih _ (rl_count_le_step c.1 c.2 m hm)

/-- C7.  The per-address invariant of the rate limiter (server.ts:50-65):
after any sequence of calls starting from the empty map, every stored
count is at most `MAX_CONNECTIONS_PER_IP`; a call that finds an active
record at or above the maximum returns `false` and leaves the map
exactly as it was; more generally every refused call leaves the map
unchanged. -/
theorem checkRateLimit_invariant (calls : List (String × Int)) :
    (∀ p ∈ runCalls calls [], p.2.count ≤ MAX_CONNECTIONS_PER_IP)
    ∧ (∀ (ip : String) (now : Int) (m : RLMap) (info : RateInfo),
        mapGet m ip = some info → ¬(now > info.resetTime) →
        info.count ≥ MAX_CONNECTIONS_PER_IP → checkRateLimit ip now m = (false, m))
    ∧ (∀ (ip : String) (now : Int) (m : RLMap),
        (checkRateLimit ip now m).1 = false → (checkRateLimit ip now m).2 = m) := by
  refine ⟨rl_count_le_runCalls calls [] (by simp), ?_, ?_⟩
  · intro ip now m info hg hact hge
    exact checkRateLimit_refuse ip now m info hg hact hge
  · intro ip now m hfalse
    rcases hg : mapGet m ip with _ | ⟨c, r⟩
    · rw [checkRateLimit_fresh ip now m (Or.inl hg)] at hfalse
      exact absurd hfalse (by simp)
    · by_cases hexp : now > r
      · rw [checkRateLimit_fresh ip now m (Or.inr ⟨⟨c, r⟩, hg, hexp⟩)] at hfalse
        exact absurd hfalse (by simp)
      · by_cases hge : c ≥ 5
        · rw [checkRateLimit_refuse ip now m ⟨c, r⟩ hg hexp hge]
        · rw [checkRateLimit_increment ip now m c r hg hexp (by omega)] at hfalse
          exact absurd hfalse (by simp)

/-- Witness for C7: a full record with an active window is refused and the
map is returned untouched. -/
theorem checkRateLimit_invariant_app :
    checkRateLimit "1.2.3.4" 50 [("1.2.3.4", ⟨5, 100⟩)] =
      (false, [("1.2.3.4", ⟨5, 100⟩)]) :=
  (checkRateLimit_invariant []).2.1 "1.2.3.4" 50 [("1.2.3.4", ⟨5, 100⟩)] ⟨5, 100⟩
    (by decide) (by decide) (by decide)

/-- The send loop delivers the payload exactly to the open sockets, in
registry order. -/
theorem sendLoop_eq (payload : String) (socks : List Sock) :
    sendLoop payload socks =
      (socks.filter (fun ws => ws.readyState == WS_OPEN)).map
        (fun ws => (ws.id, payload)) := by
  induction socks with
  | nil => rfl
  | cons ws rest ih =>
      by_cases h : ws.readyState = WS_OPEN
      · simp [sendLoop, h, ih]
      · simp [sendLoop, h, ih]

/-- C8.  `broadcast` serializes once and sends that one payload to exactly
the sockets of the registry whose ready state is OPEN, in order, skipping
the others and leaving the registry unchanged (server.ts:67-74): the
deliveries are precisely the open members of the registry paired with the
single serialized form. -/
theorem broadcast_spec {α : Type} (stringify : α → String) (data : α) (socks : List Sock) :
    (broadcast stringify data socks).2 = socks
    ∧ (broadcast stringify data socks).1 =
        (socks.filter (fun ws => ws.readyState == WS_OPEN)).map
          (fun ws => (ws.id, stringify data))
    ∧ (∀ ws ∈ socks, ws.readyState = WS_OPEN →
        (ws.id, stringify data) ∈ (broadcast stringify data socks).1)
    ∧ (∀ (i : Nat) (p : String), (i, p) ∈ (broadcast stringify data socks).1 →
        p = stringify data ∧ ∃ ws ∈ socks, ws.readyState = WS_OPEN ∧ ws.id = i) := by
  have hb : (broadcast stringify data socks).1 = sendLoop (stringify data) socks := rfl
  refine ⟨rfl, by rw [hb, sendLoop_eq], ?_, ?_⟩
  · intro ws hws hopen
    rw [hb, sendLoop_eq]
    exact List.mem_map.mpr ⟨ws, List.mem_filter.mpr ⟨hws, by simp [hopen]⟩, rfl⟩
  · intro i p hip
    rw [hb, sendLoop_eq] at hip
    rcases List.mem_map.mp hip with ⟨ws, hmem, hpair⟩
    rcases List.mem_filter.mp hmem with ⟨hws, hopen⟩
    have h1 : ws.id = i := congrArg Prod.fst hpair
    have h2 : p = stringify data := (congrArg Prod.snd hpair).symm
    exact ⟨h2, ws, hws, by simpa using hopen, h1⟩

/-- Witness for C8: with an open socket 0 and a closed socket 1 in the
registry, socket 0 receives the serialized payload. -/
theorem broadcast_spec_app :
    ((0 : Nat), "payload") ∈
      (broadcast (fun _ => "payload") (0 : Nat) [⟨0, 1⟩, ⟨1, 3⟩]).1 :=
  (broadcast_spec (fun _ => "payload") 0 [⟨0, 1⟩, ⟨1, 3⟩]).2.2.1 ⟨0, 1⟩
    (by decide) (by decide)

/-- Folding the stats accumulator counts each entry kind, from any start. -/
theorem foldl_bumpStat (l : List DiffEntry) : ∀ s : DiffStats,
    l.foldl bumpStat s =
      ⟨s.added + l.countP isAddedEntry, s.removed + l.countP isRemovedEntry,
       s.changed + l.countP isChangedEntry⟩ := by
  induction l with
  | nil => intro s; simp
  | cons e rest ih =>
      intro s
      cases e <;>
        simp [List.foldl_cons, bumpStat, ih, List.countP_cons,
          isAddedEntry, isRemovedEntry, isChangedEntry] <;>
        omega

/-- Count of each kind is a function of the kind sequence alone. -/
theorem countP_kindTag (l : List DiffEntry) :
    l.countP isAddedEntry = (l.map kindTag).count 0
    ∧ l.countP isRemovedEntry = (l.map kindTag).count 1
    ∧ l.countP isChangedEntry = (l.map kindTag).count 2 := by
  induction l with
  | nil => simp
  | cons e rest ih =>
      cases e <;>
        simp [List.countP_cons, List.count_cons, kindTag,
          isAddedEntry, isRemovedEntry, isChangedEntry, ih.1, ih.2.1, ih.2.2]

/-- C9.  The `summary` renderer (server.ts:130-135) produces exactly
`Added: a, Removed: r, Changed: c` where `a`, `r`, `c` count the entries
of each kind, and its output depends only on the sequence of entry
kinds, not on paths or value payloads. -/
theorem formatDiffSummary_spec :
    (∀ entries : List DiffEntry,
        formatDiffSummary entries =
          "Added: " ++ toString (entries.countP isAddedEntry) ++
          ", Removed: " ++ toString (entries.countP isRemovedEntry) ++
          ", Changed: " ++ toString (entries.countP isChangedEntry))
    ∧ (∀ d1 d2 : List DiffEntry, d1.map kindTag = d2.map kindTag →
        formatDiffSummary d1 = formatDiffSummary d2) := by
  have hfmt : ∀ entries : List DiffEntry,
      formatDiffSummary entries =
        "Added: " ++ toString (entries.countP isAddedEntry) ++
        ", Removed: " ++ toString (entries.countP isRemovedEntry) ++
        ", Changed: " ++ toString (entries.countP isChangedEntry) := by
    intro entries
    unfold formatDiffSummary
    rw [foldl_bumpStat]
    simp
  refine ⟨hfmt, ?_⟩
  intro d1 d2 hmap
  rw [hfmt, hfmt]
  rw [(countP_kindTag d1).1, (countP_kindTag d1).2.1, (countP_kindTag d1).2.2,
      (countP_kindTag d2).1, (countP_kindTag d2).2.1, (countP_kindTag d2).2.2, hmap]

/-- Witness for C9: two entry lists with the same kinds but different paths
and payloads render identically. -/
theorem formatDiffSummary_spec_app :
    formatDiffSummary [DiffEntry.added "x" (JsValue.vnum 1)] =
      formatDiffSummary [DiffEntry.added "other.path" (JsValue.vstr "payload")] :=
  formatDiffSummary_spec.2 [DiffEntry.added "x" (JsValue.vnum 1)]
    [DiffEntry.added "other.path" (JsValue.vstr "payload")] rfl

/-- A property read that yields a non-null object or array yields a value
structurally smaller than its parent. -/
theorem getKey_sizeOf_lt (v w : JsValue) (k : String)
    (hget : getKey v k = some w) (hobj : isObjType w = true) :
    sizeOf w < sizeOf v := by
  cases v with
  | vnull => simp [getKey] at hget
  | vbool x => simp [getKey] at hget
  | vnum x => simp [getKey] at hget
  | vstr s =>
      simp only [getKey] at hget
      cases hcanon : canonIndex k with
      | none => rw [hcanon] at hget; simp at hget
      | some i =>
          rw [hcanon] at hget
          rcases Option.map_eq_some'.mp hget with ⟨c, hc, hw⟩
          rw [← hw] at hobj
          simp [isObjType] at hobj
  | vobj fields =>
      simp only [getKey] at hget
      rcases Option.map_eq_some'.mp hget with ⟨p, hfind, hw⟩
      have hp := List.mem_of_find?_eq_some hfind
      have h1 := List.sizeOf_lt_of_mem hp
      cases p with
      | mk k' w' =>
          simp only [JsValue.vobj.sizeOf_spec]
          simp only [Prod.mk.sizeOf_spec] at h1
          have hw2 : w' = w := hw
          subst hw2
          omega
  | varr elems =>
      simp only [getKey] at hget
      cases hcanon : canonIndex k with
      | none => rw [hcanon] at hget; simp at hget
      | some i =>
          rw [hcanon] at hget
          have hw := List.getElem?_mem hget
          have h1 := List.sizeOf_lt_of_mem hw
          simp only [JsValue.varr.sizeOf_spec]
          omega

/-- JavaScript strict equality is reflexive on the values that reach the
comparing branch of the diff: `null` and the primitives (JSON numbers
carry no `NaN`). -/
theorem jsStrictEq_refl (v : JsValue) (h : isObjType v = false) :
    jsStrictEq v v = true := by
  cases v with
  | vnull => rfl
  | vbool b => simp [jsStrictEq]
  | vnum n => simp [jsStrictEq]
  | vstr s => simp [jsStrictEq]
  | vobj fields => simp [isObjType] at h
  | varr elems => simp [isObjType] at h

/-- Diffing any value against itself emits no entry, whatever key list the
loop walks. -/
theorem diffLoop_self (n : Nat) :
    ∀ (a : JsValue) (path : String) (keys : List String),
      sizeOf a < n → diffLoop a a path keys = [] := by
  induction n with
  | zero => intro a path keys h; exact absurd h (Nat.not_lt_zero _)
  | succ n ih =>
      intro a path keys ha
      induction keys with
      | nil => simp [diffLoop]
      | cons key rest ihrest =>
          rw [diffLoop]
          rw [ihrest, List.append_nil]
          cases hg : getKey a key with
          | none => simp [hg]
          | some v =>
              simp only [hg]
              by_cases hv : isObjType v = true
              · rw [dif_pos ⟨hv, hv⟩]
                have hlt : sizeOf v < sizeOf a := getKey_sizeOf_lt a v key hg hv
                exact ih v (joinPath path key) _ (by omega)
              · rw [dif_neg (fun hc => hv hc.1)]
                rw [if_pos (jsStrictEq_refl v (by simpa using hv))]

/-- C10.  `generateDiff(a, a)` returns the empty entry list for every
JSON-like value `a` and every path prefix: identical primitives are
strict-equal, identical structures recurse key by key down to identical
primitives, and the recursion on each key of the union sees the same
value on both sides (server.ts:81-105). -/
theorem generateDiff_self_empty (a : JsValue) (path : String) :
    generateDiff a a path = [] := by
  unfold generateDiff
  exact diffLoop_self (sizeOf a + 1) a path _ (Nat.lt_succ_self _)

end MongoNotify
